import Mathlib

/-!
Verification development for the iExec Google Cloud BigQuery demo dapp.

The development shallowly embeds the two Python variants of the dapp,
`src/v5/app/src/app.py` (the main variant, called `runSrc` below) and
`src/v5/app/scr/app.py` (the older variant, called `runScr` below), and
proves or refutes the specification's claims about them.

Modelling conventions:
* Python strings are modelled as Lean `String`.  CPython's `str.isalnum`
  and `str.upper` are Unicode-aware; they are modelled here by
  `pyCharIsAlnum` / `pyUpper`, which agree with CPython on the character
  repertoire this development reasons about: all of ASCII, the Greek letter
  blocks, and the micro sign.  Statements that need the ASCII-only regex
  carry an explicit all-ASCII hypothesis on the input.
* Machine integers do not occur; prices and caps are modelled as `Int`
  (BigQuery numeric values, used only by equality/zero tests in the code).
* The external BigQuery collaborator is an opaque input: a `QueryOutcome`
  value saying whether the query raised `FileNotFoundError`, raised a
  generic exception, or returned a list of rows.
* File writes are recorded in an `Artifacts` record; each field keeps the
  list (or option) of contents written to the corresponding output file,
  so "written exactly once" is expressible.
* `hashlib.sha256(...).hexdigest()` is embedded as an executable SHA-256
  over `Nat` bytes (`sha256hex`), with UTF-8 encoding of the input string.
-/

namespace IexecBQ

/-! ### Configuration constants (src variant, app.py lines 13-22) -/

def iexec_root : String := "/"

def iexec_out : String := iexec_root ++ "iexec_out"

def deterministic_file : String := "result.txt"

def default_coins : List String := ["BTC", "ETH"]

def max_input : Nat := 10

/-- Path of the deterministic fingerprint file written by the src variant:
`f'{iexec_out}/{deterministic_file}'`. -/
def deterministic_loc : String := iexec_out ++ "/" ++ deterministic_file

/-! ### ASCII character/string helpers (model of the Python built-ins used) -/

/-- The ASCII character class `[A-Za-z0-9]` of the spec's regex. -/
def asciiAlnum (c : Char) : Bool :=
  (65 ≤ c.toNat && c.toNat ≤ 90) || (97 ≤ c.toNat && c.toNat ≤ 122) ||
    (48 ≤ c.toNat && c.toNat ≤ 57)

/-- Per-character model of CPython's Unicode-aware `str.isalnum`, restricted
to the repertoire this development reasons about: the ASCII alphanumerics,
the Greek letter blocks `Α..Ω` (U+0391..U+03A9, U+03A2 unassigned) and
`α..ω` (U+03B1..U+03C9), and the micro sign `µ` (U+00B5).  On these
characters it coincides with CPython, which accepts the whole Unicode
alphanumeric category — in particular it is **not** the ASCII class alone. -/
def pyCharIsAlnum (c : Char) : Bool :=
  asciiAlnum c ||
    (913 ≤ c.toNat && c.toNat ≤ 937 && c.toNat != 930) ||
    (945 ≤ c.toNat && c.toNat ≤ 969) ||
    c.toNat == 181

/-- Model of Python `str.isalnum`: non-empty and every character alphanumeric. -/
def pyIsAlnum (s : String) : Bool := !s.data.isEmpty && s.data.all pyCharIsAlnum

/-- Model of CPython's `str.upper` on one character, for the same
repertoire: ASCII and Greek lowercase letters map up by 32 (with final
sigma `ς` to capital sigma `Σ`), the micro sign `µ` maps to the Greek
capital `Μ` (U+039C), and anything else — in particular every uppercase
character — is fixed. -/
def pyCharUpper (c : Char) : Char :=
  if 97 ≤ c.toNat ∧ c.toNat ≤ 122 then Char.ofNat (c.toNat - 32)
  else if c.toNat = 962 then Char.ofNat 931
  else if 945 ≤ c.toNat ∧ c.toNat ≤ 969 then Char.ofNat (c.toNat - 32)
  else if c.toNat = 181 then Char.ofNat 924
  else c

/-- Model of Python `str.upper` (character-wise over the repertoire). -/
def pyUpper (s : String) : String := String.mk (s.data.map pyCharUpper)

/-! ### Input sanitizer (`analyze_user_input`, src app.py lines 109-133) -/

/-- Result of `analyze_user_input`: the Python function returns the int `5`
when the self-test sentinel is present, else a sorted deduplicated list. -/
inductive AnalyzeResult where
  | sentinel
  | ok (tickers : List String)
deriving DecidableEq, Repr

/-- Lexicographic comparison of character code-point lists: the order Python
uses to compare strings. -/
def lexLe : List Char → List Char → Bool
  | [], _ => true
  | _ :: _, [] => false
  | a :: as, b :: bs =>
    if a.toNat < b.toNat then true
    else if a.toNat = b.toNat then lexLe as bs
    else false

/-- Python string comparison `a <= b` (code-point lexicographic). -/
def pyStrLe (a b : String) : Prop := lexLe a.data b.data = true

instance : DecidableRel pyStrLe := fun a b =>
  inferInstanceAs (Decidable (lexLe a.data b.data = true))

/-- `sorted(list(set(l)))`: sort the distinct elements lexicographically. -/
def sortedSet (l : List String) : List String :=
  List.insertionSort pyStrLe l.dedup

/-- The filtering loop of `analyze_user_input` (lines 125-131): keep
alphanumeric tokens strictly shorter than 6 characters, uppercased, and
break out of the loop once more than `max_input` tokens were accepted. -/
def sanitizeLoop : List String → Nat → List String
  | [], _ => []
  | arg :: rest, input_count =>
    if pyIsAlnum arg then
      if arg.length < 6 then
        if input_count + 1 > max_input then []
        else pyUpper arg :: sanitizeLoop rest (input_count + 1)
      else sanitizeLoop rest input_count
    else sanitizeLoop rest input_count

/-- `analyze_user_input` (lines 109-133): drop `argv[0]`, short-circuit on
the sentinel token `E5CB`, else filter/normalize and return
`sorted(list(set(...)))`. -/
def analyze_user_input (argv : List String) : AnalyzeResult :=
  let dapp_input := argv.drop 1
  if "E5CB" ∈ dapp_input then .sentinel
  else .ok (sortedSet (sanitizeLoop dapp_input 0))

/-! ### Query construction (src app.py lines 181-194) -/

/-- `', '.join(f'"{c}"' for c in coins)` -/
def joinQuotedCoins (coins : List String) : String :=
  String.intercalate ", " (coins.map (fun c => "\"" ++ c ++ "\""))

/-- The SQL text assembled at lines 188-194 (f-string concatenation). -/
def buildSql (table : String) (coins_sql : String) : String :=
  "SELECT coin, price, cap, date " ++
  "FROM `" ++ table ++ "` " ++
  "WHERE coin " ++
  "IN (" ++ coins_sql ++ ") " ++
  "ORDER BY coin, date ASC"

/-- `coins = sorted(list(set(user_input_valid + default_coins)))` (line 181). -/
def effectiveCoins (valid : List String) : List String :=
  sortedSet (valid ++ default_coins)

/-! ### SHA-256 (model of `hashlib.sha256(txt.encode('utf-8')).hexdigest()`)

Executable FIPS 180-4 SHA-256 over `Nat`, all words reduced mod `2 ^ 32`. -/

/-- Truncate to a 32-bit word. -/
def w32 (n : Nat) : Nat := n % 4294967296

/-- Rotate a 32-bit word right by `n` bits. -/
def rotr (n w : Nat) : Nat := w / 2 ^ n + w % 2 ^ n * 2 ^ (32 - n)

/-- Shift a 32-bit word right by `n` bits. -/
def shr (n w : Nat) : Nat := w / 2 ^ n

def shaCh (x y z : Nat) : Nat := (x &&& y) ^^^ ((x ^^^ 4294967295) &&& z)

def shaMaj (x y z : Nat) : Nat := (x &&& y) ^^^ (x &&& z) ^^^ (y &&& z)

def bigSigma0 (w : Nat) : Nat := rotr 2 w ^^^ rotr 13 w ^^^ rotr 22 w

def bigSigma1 (w : Nat) : Nat := rotr 6 w ^^^ rotr 11 w ^^^ rotr 25 w

def smallSigma0 (w : Nat) : Nat := rotr 7 w ^^^ rotr 18 w ^^^ shr 3 w

def smallSigma1 (w : Nat) : Nat := rotr 17 w ^^^ rotr 19 w ^^^ shr 10 w

/-- The 64 SHA-256 round constants (FIPS 180-4 §4.2.2, written in decimal). -/
def shaK : List Nat :=
  [1116352408, 1899447441, 3049323471, 3921009573, 961987163,
   1508970993, 2453635748, 2870763221, 3624381080, 310598401,
   607225278, 1426881987, 1925078388, 2162078206, 2614888103,
   3248222580, 3835390401, 4022224774, 264347078, 604807628,
   770255983, 1249150122, 1555081692, 1996064986, 2554220882,
   2821834349, 2952996808, 3210313671, 3336571891, 3584528711,
   113926993, 338241895, 666307205, 773529912, 1294757372,
   1396182291, 1695183700, 1986661051, 2177026350, 2456956037,
   2730485921, 2820302411, 3259730800, 3345764771, 3516065817,
   3600352804, 4094571909, 275423344, 430227734, 506948616,
   659060556, 883997877, 958139571, 1322822218, 1537002063,
   1747873779, 1955562222, 2024104815, 2227730452, 2361852424,
   2428436474, 2756734187, 3204031479, 3329325298]

/-- The initial SHA-256 hash value (FIPS 180-4 §5.3.3, written in decimal). -/
def shaH0 : List Nat :=
  [1779033703, 3144134277, 1013904242, 2773480762,
   1359893119, 2600822924, 528734635, 1541459225]

/-- UTF-8 encoding of one character as a byte list. -/
def utf8Encode (c : Char) : List Nat :=
  let n := c.toNat
  if n < 0x80 then [n]
  else if n < 0x800 then [0xC0 + n / 64, 0x80 + n % 64]
  else if n < 0x10000 then [0xE0 + n / 4096, 0x80 + n / 64 % 64, 0x80 + n % 64]
  else [0xF0 + n / 262144, 0x80 + n / 4096 % 64, 0x80 + n / 64 % 64, 0x80 + n % 64]

/-- `txt.encode('utf-8')` as a list of byte values. -/
def strBytes (s : String) : List Nat := (s.data.map utf8Encode).flatten

/-- Big-endian 8-byte rendering of a length (in bits). -/
def beBytes8 (n : Nat) : List Nat :=
  (List.range 8).map fun i => n / 2 ^ (8 * (7 - i)) % 256

/-- SHA-256 padding: append `0x80`, zeros to 56 mod 64, then the 64-bit
big-endian bit length. -/
def padBytes (msg : List Nat) : List Nat :=
  msg ++ [128] ++ List.replicate ((120 - (msg.length + 1) % 64) % 64) 0 ++
    beBytes8 (8 * msg.length)

/-- Split a list into chunks of size `n + 1`. -/
def chunksOf (n : Nat) : List α → List (List α)
  | [] => []
  | a :: t => (a :: t).take (n + 1) :: chunksOf n ((a :: t).drop (n + 1))
termination_by l => l.length
decreasing_by simp [List.length_drop]; omega

/-- One big-endian 32-bit word from (up to) four bytes. -/
def beWord : List Nat → Nat
  | [b0, b1, b2, b3] => b0 * 16777216 + b1 * 65536 + b2 * 256 + b3
  | _ => 0

/-- Extend the 16-word message schedule by `n` further words. -/
def extendW (w : List Nat) : Nat → List Nat
  | 0 => w
  | n + 1 =>
    let prev := extendW w n
    prev ++ [w32 (smallSigma1 (prev.getD (prev.length - 2) 0) +
      prev.getD (prev.length - 7) 0 +
      smallSigma0 (prev.getD (prev.length - 15) 0) +
      prev.getD (prev.length - 16) 0)]

/-- The eight SHA-256 working variables. -/
structure ShaState where
  a : Nat
  b : Nat
  c : Nat
  d : Nat
  e : Nat
  f : Nat
  g : Nat
  hh : Nat

/-- One SHA-256 compression round. -/
def shaRound (st : ShaState) (kt wt : Nat) : ShaState :=
  let t1 := w32 (st.hh + bigSigma1 st.e + shaCh st.e st.f st.g + kt + wt)
  let t2 := w32 (bigSigma0 st.a + shaMaj st.a st.b st.c)
  { a := w32 (t1 + t2), b := st.a, c := st.b, d := st.c,
    e := w32 (st.d + t1), f := st.e, g := st.f, hh := st.g }

/-- Compress one 64-byte block into the running 8-word hash value. -/
def compressBlock (hs : List Nat) (block : List Nat) : List Nat :=
  let W := extendW ((chunksOf 3 block).map beWord) 48
  let init : ShaState :=
    { a := hs.getD 0 0, b := hs.getD 1 0, c := hs.getD 2 0, d := hs.getD 3 0,
      e := hs.getD 4 0, f := hs.getD 5 0, g := hs.getD 6 0, hh := hs.getD 7 0 }
  let fin := (shaK.zip W).foldl (fun st kw => shaRound st kw.1 kw.2) init
  [w32 (hs.getD 0 0 + fin.a), w32 (hs.getD 1 0 + fin.b),
   w32 (hs.getD 2 0 + fin.c), w32 (hs.getD 3 0 + fin.d),
   w32 (hs.getD 4 0 + fin.e), w32 (hs.getD 5 0 + fin.f),
   w32 (hs.getD 6 0 + fin.g), w32 (hs.getD 7 0 + fin.hh)]

/-- The eight 32-bit words of the SHA-256 digest of a string. -/
def sha256Words (s : String) : List Nat :=
  ((chunksOf 63 (padBytes (strBytes s)))).foldl compressBlock shaH0

/-- One lowercase hexadecimal digit. -/
def hexDigit (n : Nat) : Char :=
  if n < 10 then Char.ofNat (48 + n) else Char.ofNat (87 + n)

/-- A 32-bit word as exactly eight lowercase hex characters. -/
def hexWord (n : Nat) : String :=
  String.mk ((List.range 8).map fun i => hexDigit (n / 16 ^ (7 - i) % 16))

/-- Concatenate the hex renderings of a word list. -/
def hexOfWords : List Nat → String
  | [] => ""
  | w :: t => hexWord w ++ hexOfWords t

/-- `sha256(str(txt).encode('utf-8')).hexdigest()` (app.py line 67). -/
def sha256hex (s : String) : String := hexOfWords (sha256Words s)

/-! ### Result serializer (`create_csv`, src app.py lines 76-106) -/

/-- A calendar date at day granularity (the `row.date` value). -/
structure PyDate where
  month : Nat
  day : Nat
  year : Nat
deriving DecidableEq, Repr

/-- Zero-pad to two digits (strftime `%m` / `%d`). -/
def pad2 (n : Nat) : String := if n < 10 then "0" ++ toString n else toString n

/-- Zero-pad to four digits (strftime `%Y`, CPython behaviour). -/
def pad4 (n : Nat) : String :=
  if n < 10 then "000" ++ toString n
  else if n < 100 then "00" ++ toString n
  else if n < 1000 then "0" ++ toString n
  else toString n

/-- `row.date.strftime('%m-%d-%Y')` (line 82). -/
def strftimeMDY (d : PyDate) : String :=
  pad2 d.month ++ "-" ++ pad2 d.day ++ "-" ++ pad4 d.year

/-- One `(coin, price, cap, date)` result row from the query. -/
structure PriceRow where
  coin : String
  price : Int
  cap : Int
  date : PyDate
deriving DecidableEq, Repr

/-- The per-coin dict: date key to `[formatted_price, formatted_cap]`. -/
abbrev InnerMap := List (String × (Int × Int))

/-- `cvs_data['coins']`: insertion-ordered dict from coin to per-coin dict. -/
abbrev CoinsMap := List (String × InnerMap)

/-- Insertion-ordered Python dict lookup. -/
def lookupA : List (String × β) → String → Option β
  | [], _ => none
  | (k, v) :: t, c => if k = c then some v else lookupA t c

/-- Insertion-ordered Python dict assignment `d[k] = v`: an existing key
keeps its position, a new key is appended at the end. -/
def assocSet : List (String × β) → String → β → List (String × β)
  | [], k, v => [(k, v)]
  | (k0, v0) :: t, k, v =>
    if k0 = k then (k, v) :: t else (k0, v0) :: assocSet t k v

/-- The body of the `for row in rows` loop (lines 79-92).  When the row's cap
is nonzero, `cvs_data['coins'][row.coin][date_key] = [price, cap]` is
attempted; on `KeyError` (first time the coin is seen) the per-coin dict is
created **empty** and the row's values are not stored. -/
def csvStep (coins : CoinsMap) (row : PriceRow) : CoinsMap :=
  if row.cap ≠ 0 then
    let date_key := strftimeMDY row.date
    match lookupA coins row.coin with
    | some inner =>
      assocSet coins row.coin (assocSet inner date_key (row.price, row.cap))
    | none => coins ++ [(row.coin, [])]
  else coins

/-- The fully built `cvs_data['coins']` dict. -/
def buildCoins (rows : List PriceRow) : CoinsMap := rows.foldl csvStep []

/-- `cvs_data['header']` (line 77). -/
def csvHeader : List String := ["coin", "price", "cap", "date"]

/-- The data cells written by the nested loops at lines 99-101, as
`(coin, date_key, price, cap)` tuples in write order. -/
def dataEntries (rows : List PriceRow) : List (String × String × Int × Int) :=
  (buildCoins rows).flatMap fun ci => ci.2.map fun de => (ci.1, de.1, de.2.1, de.2.2)

/-- The full `data.csv` contents as rows of cells: the header row followed by
`[coin, coin_date] + [formatted_price, formatted_cap]` per retained entry. -/
def csvTable (rows : List PriceRow) : List (List String) :=
  csvHeader ::
    (dataEntries rows).map fun e => [e.1, e.2.1, toString e.2.2.1, toString e.2.2.2]

/-! ### Finalizer state machine (src app.py `__main__`, lines 162-263) -/

/-- The opaque outcome of the external BigQuery call (`q.result()`):
`FileNotFoundError`, some other exception, or a row list. -/
inductive QueryOutcome where
  | fileNotFound
  | queryError
  | ok (rows : List PriceRow)
deriving DecidableEq, Repr

/-- `ErrorCallback.messages` (lines 26-33).  The Python dict raises
`KeyError` outside `1..6`; only codes `1..6` are ever constructed. -/
def errMessages : Nat → String
  | 1 => "no dataset file found"
  | 2 => "credentials file not found or corrupted"
  | 3 => "general bigquery query error"
  | 4 => "error creating csv"
  | 5 => "auto callback test error"
  | 6 => "general dapp error"
  | _ => ""

/-- The diagnostic line logged by the src except-handlers (lines 238, 242). -/
def errLine (c : Nat) : String :=
  "ERROR: (" ++ toString c ++ ") " ++ errMessages c

/-- The output artifacts of one run.  Write-lists record every write to the
corresponding file so "written exactly once" is expressible; `computedPath`
is the `deterministic-output-path` entry of `computed.json` (if present) and
`callbackData` its `callback-data` entry.  `errorLog` keeps only the
deterministically rendered ERROR diagnostic lines (timestamped lines are
not modelled).  `errorCode` is the terminal failure classification
(`none` = success). -/
structure Artifacts where
  errorLog : List String
  dataCsv : Option (List (List String))
  receipt : Bool
  resultWrites : List String
  errorWrites : List String
  computedPath : Option String
  callbackData : Option String
  computedWrites : Nat
  errorCode : Option Nat
deriving DecidableEq, Repr

/-- The src finalization code after the try/except (lines 236-261): log the
error, then — since `deterministic` is only set on the success path — either
point `computed.json` at the success fingerprint, or write the
`sha256('error')` fingerprint plus the (empty) `ERROR.txt` marker, and
finally write `computed.json` exactly once. -/
def finalizeSrc (dataCsv : Option (List (List String))) (receipt : Bool)
    (outcome : Except Nat String) : Artifacts :=
  match outcome with
  | .ok sql =>
    { errorLog := [], dataCsv := dataCsv, receipt := receipt,
      resultWrites := [sha256hex sql], errorWrites := [],
      computedPath := some deterministic_loc, callbackData := none,
      computedWrites := 1, errorCode := none }
  | .error c =>
    { errorLog := [errLine c], dataCsv := dataCsv, receipt := receipt,
      resultWrites := [sha256hex "error"], errorWrites := [""],
      computedPath := some deterministic_loc, callbackData := none,
      computedWrites := 1, errorCode := some c }

/-- The src `__main__` (lines 162-263) as a function of the run environment:
the argument vector, the parsed dataset descriptor (`none` models a
missing/corrupt file, a missing `dataset` key, or a falsy value — line 185),
the external query outcome, whether writing `data.csv` succeeds
(`create_csv`'s try), and whether writing `receipt.txt` succeeds (a failure
there is an unclassified exception caught by the bare `except`, code 6). -/
def runSrc (argv : List String) (datasetTable : Option String)
    (q : QueryOutcome) (csvOk : Bool) (receiptOk : Bool) : Artifacts :=
  match analyze_user_input argv with
  | .sentinel => finalizeSrc none false (.error 5)
  | .ok user_input_valid =>
    let coins := effectiveCoins user_input_valid
    let coins_sql := joinQuotedCoins coins
    match datasetTable with
    | none => finalizeSrc none false (.error 1)
    | some table =>
      let sql := buildSql table coins_sql
      match q with
      | .fileNotFound => finalizeSrc none false (.error 2)
      | .queryError => finalizeSrc none false (.error 3)
      | .ok rows =>
        if csvOk then
          if receiptOk then finalizeSrc (some (csvTable rows)) true (.ok sql)
          else finalizeSrc (some (csvTable rows)) false (.error 6)
        else finalizeSrc none false (.error 4)

/-! ### The scr variant (`src/v5/app/scr/app.py`, lines 150-221) -/

def iexec_out_scr : String := "./iexec_out"

/-- scr line 16: the fingerprint file name. -/
def deterministic_scr : String := "result.txt"

def deterministic_loc_scr : String := iexec_out_scr ++ "/" ++ deterministic_scr

/-- scr line 17: `error_callback = True` — handle errors with a callback. -/
def error_callback : Bool := true

/-- Two lowercase hex characters of one byte. -/
def hexByte (n : Nat) : String := String.mk [hexDigit (n / 16 % 16), hexDigit (n % 16)]

/-- Model of the external encoder `to_hex(encode_single('uint8', code))`
(scr lines 139-147): a 32-byte big-endian word holding the code. -/
def create_error_callback (c : Nat) : String :=
  "0x" ++ String.mk (List.replicate 62 '0') ++ hexByte c

/-- The diagnostic line logged by the scr except-handler (line 214). -/
def errLineScr (c : Nat) : String :=
  "*****ERROR******: (" ++ toString c ++ ") " ++ errMessages c

/-- The scr `__main__` (lines 150-221).  `analyze_user_input`,
`get_dataset_table` and `create_csv` raise `ErrorCallback` directly in this
variant; the handler either emits a callback-only `computed.json`
(`error_callback = True`, the module default — no fingerprint file!) or
writes the `sha256('ERROR')` fingerprint. -/
def runScr (argv : List String) (datasetTable : Option String)
    (q : QueryOutcome) (csvOk : Bool) : Artifacts :=
  let tryResult : Except Nat (List PriceRow × String) :=
    match analyze_user_input argv with
    | .sentinel => .error 5
    | .ok user_input_valid =>
      let coins := effectiveCoins user_input_valid
      let coins_sql := joinQuotedCoins coins
      match datasetTable with
      | none => .error 1
      | some table =>
        let sql := buildSql table coins_sql
        match q with
        | .fileNotFound => .error 2
        | .queryError => .error 3
        | .ok rows => if csvOk then .ok (rows, sql) else .error 4
  match tryResult with
  | .ok rs =>
    { errorLog := [], dataCsv := some (csvTable rs.1), receipt := true,
      resultWrites := [sha256hex rs.2], errorWrites := [],
      computedPath := some deterministic_loc_scr, callbackData := none,
      computedWrites := 1, errorCode := none }
  | .error c =>
    if error_callback then
      { errorLog := [errLineScr c], dataCsv := none, receipt := false,
        resultWrites := [], errorWrites := [],
        computedPath := none, callbackData := some (create_error_callback c),
        computedWrites := 1, errorCode := some c }
    else
      { errorLog := [errLineScr c], dataCsv := none, receipt := false,
        resultWrites := [sha256hex "ERROR"], errorWrites := [],
        computedPath := some deterministic_loc_scr, callbackData := none,
        computedWrites := 1, errorCode := some c }

theorem sanitizeLoop_length (l : List String) (c : Nat) :
    (sanitizeLoop l c).length ≤ max_input - c := by
  induction l generalizing c with
  | nil => simp [sanitizeLoop]
  | cons a t ih =>
    simp only [sanitizeLoop]
    by_cases hp : pyIsAlnum a = true
    · rw [if_pos hp]
      by_cases hl : a.length < 6
      · rw [if_pos hl]
        by_cases hb : c + 1 > max_input
        · rw [if_pos hb]; simp
        · rw [if_neg hb]
          have := ih (c + 1)
          rw [List.length_cons]
          omega
      · rw [if_neg hl]; exact ih c
    · rw [if_neg hp]; exact ih c

theorem char_toNat_injective {a b : Char} (h : a.toNat = b.toNat) : a = b := by
  have ha := @Char.ofNat_toNat a
  have hb := @Char.ofNat_toNat b
  rw [← ha, ← hb, h]

theorem lexLe_refl (l : List Char) : lexLe l l = true := by
  induction l with
  | nil => rfl
  | cons a t ih => simp [lexLe, ih]

theorem lexLe_total (l1 l2 : List Char) : lexLe l1 l2 = true ∨ lexLe l2 l1 = true := by
  induction l1 generalizing l2 with
  | nil => left; rfl
  | cons a t ih =>
    cases l2 with
    | nil => right; rfl
    | cons b u =>
      by_cases hab : a.toNat = b.toNat
      · rcases ih u with h | h
        · left; simp [lexLe, hab, h]
        · right; simp [lexLe, hab.symm, h]
      · rcases Nat.lt_or_ge a.toNat b.toNat with h | h
        · left; simp [lexLe, h]
        · have hlt : b.toNat < a.toNat := by omega
          right
          simp [lexLe, hlt]

theorem lexLe_trans {l1 l2 l3 : List Char} (h1 : lexLe l1 l2 = true)
    (h2 : lexLe l2 l3 = true) : lexLe l1 l3 = true := by
  induction l1 generalizing l2 l3 with
  | nil => rfl
  | cons a t ih =>
    cases l2 with
    | nil => simp [lexLe] at h1
    | cons b u =>
      cases l3 with
      | nil => simp [lexLe] at h2
      | cons c v =>
        simp only [lexLe] at h1 h2 ⊢
        by_cases hab : a.toNat < b.toNat
        · by_cases hbc : b.toNat < c.toNat
          · rw [if_pos (by omega)]
          · rw [if_neg hbc] at h2
            by_cases hbc2 : b.toNat = c.toNat
            · rw [if_pos (by omega)]
            · rw [if_neg hbc2] at h2; cases h2
        · rw [if_neg hab] at h1
          by_cases hab2 : a.toNat = b.toNat
          · rw [if_pos hab2] at h1
            by_cases hbc : b.toNat < c.toNat
            · rw [if_pos (by omega)]
            · rw [if_neg hbc] at h2
              by_cases hbc2 : b.toNat = c.toNat
              · rw [if_pos hbc2] at h2
                rw [if_neg (by omega), if_pos (by omega)]
                exact ih h1 h2
              · rw [if_neg hbc2] at h2; cases h2
          · rw [if_neg hab2] at h1; cases h1

theorem lexLe_antisymm {l1 l2 : List Char} (h1 : lexLe l1 l2 = true)
    (h2 : lexLe l2 l1 = true) : l1 = l2 := by
  induction l1 generalizing l2 with
  | nil =>
    cases l2 with
    | nil => rfl
    | cons b u => simp [lexLe] at h2
  | cons a t ih =>
    cases l2 with
    | nil => simp [lexLe] at h1
    | cons b u =>
      simp only [lexLe] at h1 h2
      by_cases hab : a.toNat < b.toNat
      · rw [if_neg (by omega), if_neg (by omega)] at h2; cases h2
      · rw [if_neg hab] at h1
        by_cases hab2 : a.toNat = b.toNat
        · rw [if_pos hab2] at h1
          rw [if_neg (by omega), if_pos (by omega)] at h2
          rw [char_toNat_injective hab2, ih h1 h2]
        · rw [if_neg hab2] at h1; cases h1

instance : IsTotal String pyStrLe :=
  ⟨fun a b => lexLe_total a.data b.data⟩

instance : IsTrans String pyStrLe :=
  ⟨fun _ _ _ => lexLe_trans⟩

instance : IsRefl String pyStrLe :=
  ⟨fun a => lexLe_refl a.data⟩

instance : IsAntisymm String pyStrLe :=
  ⟨fun a b h1 h2 => by
    cases a
    cases b
    exact congrArg String.mk (lexLe_antisymm h1 h2)⟩

theorem sortedSet_sorted (l : List String) : List.Sorted pyStrLe (sortedSet l) :=
  List.sorted_insertionSort _ _

theorem sortedSet_perm_dedup (l : List String) : (sortedSet l).Perm l.dedup :=
  List.perm_insertionSort _ _

theorem mem_sortedSet {a : String} {l : List String} :
    a ∈ sortedSet l ↔ a ∈ l := by
  rw [(sortedSet_perm_dedup l).mem_iff, List.mem_dedup]

theorem sortedSet_length_le (l : List String) :
    (sortedSet l).length ≤ l.length := by
  rw [(sortedSet_perm_dedup l).length_eq]
  exact (List.dedup_sublist l).length_le

theorem sortedSet_eq_of_mem_iff {l1 l2 : List String}
    (h : ∀ a, a ∈ l1 ↔ a ∈ l2) : sortedSet l1 = sortedSet l2 := by
  refine List.eq_of_perm_of_sorted ?_ (sortedSet_sorted l1) (sortedSet_sorted l2)
  have hd : l1.dedup.Perm l2.dedup :=
    (List.perm_ext_iff_of_nodup (List.nodup_dedup _) (List.nodup_dedup _)).mpr
      (by intro a; rw [List.mem_dedup, List.mem_dedup]; exact h a)
  exact (sortedSet_perm_dedup l1).trans (hd.trans (sortedSet_perm_dedup l2).symm)

/-- C9: whenever the sentinel token `E5CB` occurs among the arguments
(after the program name), `analyze_user_input` short-circuits to the
sentinel result — before any alphanumeric/length filtering, whatever the
other tokens are — and the run terminates in the self-test failure code 5,
logging its taxonomy line. -/
theorem sentinel_forces_selftest_code :
    ∀ (argv : List String) (tbl : Option String) (q : QueryOutcome)
      (csvOk receiptOk : Bool),
      "E5CB" ∈ argv.drop 1 →
      analyze_user_input argv = .sentinel ∧
      (runSrc argv tbl q csvOk receiptOk).errorCode = some 5 ∧
      (runSrc argv tbl q csvOk receiptOk).errorLog = [errLine 5] := by
  intro argv tbl q csvOk receiptOk h
  have ha : analyze_user_input argv = .sentinel := by
    unfold analyze_user_input
    rw [if_pos h]
  refine ⟨ha, ?_, ?_⟩ <;> simp [runSrc, ha, finalizeSrc]

/-- Witness for the C9 theorem: the sentinel among assorted other tokens. -/
theorem sentinel_forces_selftest_code_witness :
    "E5CB" ∈ (["app", "btc", "E5CB", "x!"] : List String).drop 1 ∧
    (runSrc ["app", "btc", "E5CB", "x!"] (some "t") (.ok []) true true).errorCode =
      some 5 :=
  ⟨by decide,
    (sentinel_forces_selftest_code ["app", "btc", "E5CB", "x!"] (some "t")
      (.ok []) true true (by decide)).2.1⟩

/-- C5: the quoted, comma-joined filter list — and hence the success-path
fingerprint — is a deterministic function of the effective ticker set and
the dataset identifier: two sanitized inputs with the same effective set
(as a set) yield byte-identical filter text and fingerprint. -/
theorem query_construction_deterministic :
    ∀ (v1 v2 : List String) (table : String),
      (v1 ++ default_coins).toFinset = (v2 ++ default_coins).toFinset →
      effectiveCoins v1 = effectiveCoins v2 ∧
      joinQuotedCoins (effectiveCoins v1) = joinQuotedCoins (effectiveCoins v2) ∧
      sha256hex (buildSql table (joinQuotedCoins (effectiveCoins v1))) =
        sha256hex (buildSql table (joinQuotedCoins (effectiveCoins v2))) := by
  intro v1 v2 table h
  have he : effectiveCoins v1 = effectiveCoins v2 := by
    unfold effectiveCoins
    refine sortedSet_eq_of_mem_iff fun a => ?_
    constructor
    · intro ha
      exact List.mem_toFinset.mp (h ▸ List.mem_toFinset.mpr ha)
    · intro ha
      exact List.mem_toFinset.mp (h.symm ▸ List.mem_toFinset.mpr ha)
  rw [he]
  exact ⟨rfl, rfl, rfl⟩

/-- Witness for the C5 theorem: `{DOGE, ETH}` and `{DOGE, DOGE}` have the
same effective ticker set `{BTC, DOGE, ETH}` and produce the same filter. -/
theorem query_construction_deterministic_witness :
    ((["DOGE", "ETH"] : List String) ++ default_coins).toFinset =
      ((["DOGE", "DOGE"] : List String) ++ default_coins).toFinset ∧
    joinQuotedCoins (effectiveCoins ["DOGE", "ETH"]) =
      joinQuotedCoins (effectiveCoins ["DOGE", "DOGE"]) :=
  ⟨by decide,
    (query_construction_deterministic ["DOGE", "ETH"] ["DOGE", "DOGE"] "t"
      (by decide)).2.1⟩

/-- C7 counterexample: ten accepted user tickers plus the two always-added
defaults give an effective ticker set of size 12, which exceeds the
configured maximum input count `max_input = 10`. -/
theorem effective_set_exceeds_max_input :
    analyze_user_input
        ["app", "C01", "C02", "C03", "C04", "C05", "C06", "C07", "C08", "C09",
          "C10"] =
      .ok ["C01", "C02", "C03", "C04", "C05", "C06", "C07", "C08", "C09", "C10"] ∧
    (effectiveCoins
        ["C01", "C02", "C03", "C04", "C05", "C06", "C07", "C08", "C09",
          "C10"]).length = 12 ∧
    ¬ ((effectiveCoins
        ["C01", "C02", "C03", "C04", "C05", "C06", "C07", "C08", "C09",
          "C10"]).length ≤ max_input) := by
  decide

/-- C7 as amended: for every sanitized input, the effective ticker set that
is queried has at least `default_coins.length = 2` elements (the defaults
are always unioned in) and at most `max_input + default_coins.length = 12`
elements — not `max_input`, which bounds only the user-supplied part. -/
theorem effective_set_size_bounds :
    ∀ (argv v : List String), analyze_user_input argv = .ok v →
      default_coins.length ≤ (effectiveCoins v).length ∧
      (effectiveCoins v).length ≤ max_input + default_coins.length := by
  intro argv v h
  constructor
  · have hb : "BTC" ∈ effectiveCoins v :=
      mem_sortedSet.mpr (List.mem_append.mpr (Or.inr (by decide)))
    have he : "ETH" ∈ effectiveCoins v :=
      mem_sortedSet.mpr (List.mem_append.mpr (Or.inr (by decide)))
    have hsub : ({"BTC", "ETH"} : Finset String) ⊆ (effectiveCoins v).toFinset := by
      refine Finset.insert_subset_iff.mpr ⟨List.mem_toFinset.mpr hb, ?_⟩
      exact Finset.singleton_subset_iff.mpr (List.mem_toFinset.mpr he)
    have hcard : ({"BTC", "ETH"} : Finset String).card = 2 := by decide
    calc default_coins.length = 2 := by decide
    _ = ({"BTC", "ETH"} : Finset String).card := hcard.symm
    _ ≤ (effectiveCoins v).toFinset.card := Finset.card_le_card hsub
    _ ≤ (effectiveCoins v).length := List.toFinset_card_le _
  · have hvlen : v.length ≤ max_input := by
      unfold analyze_user_input at h
      by_cases hs : "E5CB" ∈ argv.drop 1
      · rw [if_pos hs] at h; cases h
      · rw [if_neg hs] at h
        cases h
        calc (sortedSet (sanitizeLoop (argv.drop 1) 0)).length
            ≤ (sanitizeLoop (argv.drop 1) 0).length := sortedSet_length_le _
        _ ≤ max_input - 0 := sanitizeLoop_length _ 0
        _ ≤ max_input := by omega
    calc (effectiveCoins v).length ≤ (v ++ default_coins).length :=
        sortedSet_length_le _
    _ = v.length + default_coins.length := List.length_append _ _
    _ ≤ max_input + default_coins.length := by
        have : default_coins.length = 2 := by decide
        omega

/-- Witness for the amended C7 theorem at a concrete sanitized input. -/
theorem effective_set_size_bounds_witness :
    default_coins.length ≤ (effectiveCoins ["DOGE"]).length ∧
    (effectiveCoins ["DOGE"]).length ≤ max_input + default_coins.length :=
  effective_set_size_bounds ["app", "doge"] ["DOGE"] (by decide)

theorem lookupA_assocSet (l : List (String × β)) (k : String) (v : β) (c : String) :
    lookupA (assocSet l k v) c = if k = c then some v else lookupA l c := by
  induction l with
  | nil => simp [assocSet, lookupA]
  | cons kv t ih =>
    rcases kv with ⟨k0, v0⟩
    by_cases h0 : k0 = k
    · subst h0
      simp only [assocSet, if_pos rfl]
      by_cases hc : k0 = c
      · simp [lookupA, hc]
      · simp [lookupA, hc]
    · simp only [assocSet, if_neg h0]
      by_cases hc : k0 = c
      · subst hc
        have hkc : ¬ k = k0 := fun hh => h0 hh.symm
        simp [lookupA, if_neg hkc]
      · simp [lookupA, hc, ih]

theorem mem_assocSet {l : List (String × β)} {k : String} {v : β} {x : String × β}
    (h : x ∈ assocSet l k v) : x = (k, v) ∨ x ∈ l := by
  induction l with
  | nil => simpa [assocSet] using h
  | cons kv t ih =>
    rcases kv with ⟨k0, v0⟩
    by_cases h0 : k0 = k
    · subst h0
      simp only [assocSet, if_pos rfl] at h
      rcases List.mem_cons.mp h with h | h
      · exact Or.inl h
      · exact Or.inr (List.mem_cons_of_mem _ h)
    · simp only [assocSet, if_neg h0] at h
      rcases List.mem_cons.mp h with h | h
      · exact Or.inr (h ▸ List.mem_cons_self _ _)
      · rcases ih h with h | h
        · exact Or.inl h
        · exact Or.inr (List.mem_cons_of_mem _ h)

theorem keys_assocSet_of_isSome {l : List (String × β)} {k : String} (v : β)
    (h : (lookupA l k).isSome = true) :
    (assocSet l k v).map Prod.fst = l.map Prod.fst := by
  induction l with
  | nil => simp [lookupA] at h
  | cons kv t ih =>
    rcases kv with ⟨k0, v0⟩
    by_cases h0 : k0 = k
    · subst h0
      simp [assocSet]
    · simp only [lookupA, if_neg h0] at h
      simp [assocSet, if_neg h0, ih h]

theorem lookupA_append (l1 l2 : List (String × β)) (c : String) :
    lookupA (l1 ++ l2) c =
      match lookupA l1 c with
      | some v => some v
      | none => lookupA l2 c := by
  induction l1 with
  | nil => simp [lookupA]
  | cons kv t ih =>
    rcases kv with ⟨k0, v0⟩
    by_cases h0 : k0 = c
    · simp [lookupA, h0]
    · simp [lookupA, h0, ih]

theorem lookupA_append_single (l : List (String × β)) (k : String) (v : β)
    (c : String) (hc : lookupA l c = none) :
    lookupA (l ++ [(k, v)]) c = if k = c then some v else none := by
  rw [lookupA_append, hc]
  rfl

theorem lookupA_append_single_of_isSome (l : List (String × β)) (k : String)
    (v : β) (c : String) (hc : (lookupA l c).isSome = true) :
    lookupA (l ++ [(k, v)]) c = lookupA l c := by
  rw [lookupA_append]
  cases hx : lookupA l c with
  | some x => rfl
  | none => rw [hx] at hc; cases hc

theorem lookupA_eq_none_iff (l : List (String × β)) (c : String) :
    lookupA l c = none ↔ c ∉ l.map Prod.fst := by
  induction l with
  | nil => simp [lookupA]
  | cons kv t ih =>
    rcases kv with ⟨k0, v0⟩
    by_cases h0 : k0 = c
    · subst h0
      simp [lookupA]
    · simp only [lookupA, if_neg h0, List.map_cons, List.mem_cons, ih]
      constructor
      · intro hn hmem
        rcases hmem with hh | hh
        · exact h0 hh.symm
        · exact hn hh
      · intro hn
        exact fun hh => hn (Or.inr hh)

theorem lookupA_of_mem_of_nodup {l : List (String × β)} {k : String} {v : β}
    (hn : (l.map Prod.fst).Nodup) (h : (k, v) ∈ l) : lookupA l k = some v := by
  induction l with
  | nil => cases h
  | cons kv t ih =>
    rcases kv with ⟨k0, v0⟩
    rcases List.mem_cons.mp h with h | h
    · cases h
      simp [lookupA]
    · have hk0 : k0 ∉ t.map Prod.fst := (List.nodup_cons.mp hn).1
      have hkne : ¬ k0 = k := by
        intro hh
        subst hh
        exact hk0 (List.mem_map.mpr ⟨(k0, v), h, rfl⟩)
      rw [lookupA, if_neg hkne]
      exact ih (List.nodup_cons.mp hn).2 h

theorem csvStep_inv (pre : List PriceRow) (m : CoinsMap) (r : PriceRow)
    (hkeys : (m.map Prod.fst).Nodup)
    (hI1 : ∀ c : String, (lookupA m c).isSome = true ↔
      ∃ x ∈ pre, x.coin = c ∧ x.cap ≠ 0)
    (hI2 : ∀ (c : String) (inner : InnerMap) (d : String) (p k : Int),
      lookupA m c = some inner → (d, (p, k)) ∈ inner →
      ∃ r1 r2 : PriceRow, [r1, r2].Sublist pre ∧ r1.coin = c ∧ r1.cap ≠ 0 ∧
        r2.coin = c ∧ r2.cap ≠ 0 ∧ strftimeMDY r2.date = d ∧
        r2.price = p ∧ r2.cap = k) :
    ((csvStep m r).map Prod.fst).Nodup ∧
    (∀ c : String, (lookupA (csvStep m r) c).isSome = true ↔
      ∃ x ∈ pre ++ [r], x.coin = c ∧ x.cap ≠ 0) ∧
    (∀ (c : String) (inner : InnerMap) (d : String) (p k : Int),
      lookupA (csvStep m r) c = some inner → (d, (p, k)) ∈ inner →
      ∃ r1 r2 : PriceRow, [r1, r2].Sublist (pre ++ [r]) ∧ r1.coin = c ∧ r1.cap ≠ 0 ∧
        r2.coin = c ∧ r2.cap ≠ 0 ∧ strftimeMDY r2.date = d ∧
        r2.price = p ∧ r2.cap = k) := by
  have hsub : pre.Sublist (pre ++ [r]) := List.sublist_append_left _ _
  by_cases hcap : r.cap ≠ 0
  · cases hlk : lookupA m r.coin with
    | none =>
      have hstep : csvStep m r = m ++ [(r.coin, [])] := by
        simp [csvStep, hcap, hlk]
      have hnotin : r.coin ∉ m.map Prod.fst := (lookupA_eq_none_iff m r.coin).mp hlk
      rw [hstep]
      refine ⟨?_, ?_, ?_⟩
      · rw [List.map_append]
        simp only [List.map_cons, List.map_nil]
        rw [List.nodup_append]
        refine ⟨hkeys, List.nodup_singleton _, ?_⟩
        intro a ha hb
        rcases List.mem_singleton.mp hb with rfl
        exact hnotin ha
      · intro c
        constructor
        · intro hh
          cases hc : lookupA m c with
          | some v =>
            rcases (hI1 c).mp (by rw [hc]; rfl) with ⟨x, hx, hxc⟩
            exact ⟨x, List.mem_append.mpr (Or.inl hx), hxc⟩
          | none =>
            rw [lookupA_append_single m r.coin [] c hc] at hh
            by_cases hrc : r.coin = c
            · exact ⟨r, List.mem_append.mpr (Or.inr (List.mem_singleton.mpr rfl)),
                hrc, hcap⟩
            · rw [if_neg hrc] at hh
              cases hh
        · rintro ⟨x, hx, hxc1, hxc2⟩
          rcases List.mem_append.mp hx with hx | hx
          · have hms := (hI1 c).mpr ⟨x, hx, hxc1, hxc2⟩
            rw [lookupA_append_single_of_isSome m r.coin [] c hms]
            exact hms
          · rcases List.mem_singleton.mp hx with rfl
            cases hc : lookupA m c with
            | some v =>
              rw [lookupA_append_single_of_isSome m x.coin [] c (by rw [hc]; rfl),
                hc]
              rfl
            | none =>
              rw [lookupA_append_single m x.coin [] c hc, if_pos hxc1]
              rfl
      · intro c inner d p k hl hm
        cases hc : lookupA m c with
        | some v =>
          rw [lookupA_append_single_of_isSome m r.coin [] c (by rw [hc]; rfl),
            hc] at hl
          cases hl
          rcases hI2 c inner d p k hc hm with ⟨r1, r2, hs, hx⟩
          exact ⟨r1, r2, hs.trans hsub, hx⟩
        | none =>
          rw [lookupA_append_single m r.coin [] c hc] at hl
          by_cases hrc : r.coin = c
          · rw [if_pos hrc] at hl
            cases hl
            cases hm
          · rw [if_neg hrc] at hl
            cases hl
    | some inner0 =>
      have hsome : (lookupA m r.coin).isSome = true := by rw [hlk]; rfl
      have hstep : csvStep m r =
          assocSet m r.coin
            (assocSet inner0 (strftimeMDY r.date) (r.price, r.cap)) := by
        simp [csvStep, hcap, hlk]
      rw [hstep]
      refine ⟨?_, ?_, ?_⟩
      · rw [keys_assocSet_of_isSome _ hsome]
        exact hkeys
      · intro c
        rw [lookupA_assocSet]
        by_cases hrc : r.coin = c
        · rw [if_pos hrc]
          constructor
          · intro _
            exact ⟨r, List.mem_append.mpr (Or.inr (List.mem_singleton.mpr rfl)),
              hrc, hcap⟩
          · intro _
            rfl
        · rw [if_neg hrc]
          rw [hI1 c]
          constructor
          · rintro ⟨x, hx, hxc⟩
            exact ⟨x, List.mem_append.mpr (Or.inl hx), hxc⟩
          · rintro ⟨x, hx, hxc⟩
            rcases List.mem_append.mp hx with hx | hx
            · exact ⟨x, hx, hxc⟩
            · rcases List.mem_singleton.mp hx with rfl
              exact absurd hxc.1 hrc
      · intro c inner d p k hl hm
        rw [lookupA_assocSet] at hl
        by_cases hrc : r.coin = c
        · rw [if_pos hrc] at hl
          cases hl
          rcases mem_assocSet hm with hnew | hold
          · rcases Prod.mk.injEq _ _ _ _ |>.mp hnew with ⟨hd, hpk⟩
            rcases Prod.mk.injEq _ _ _ _ |>.mp hpk with ⟨hp, hk⟩
            rcases (hI1 r.coin).mp hsome with ⟨r1, hr1, hr1c, hr1cap⟩
            refine ⟨r1, r, ?_, ?_, hr1cap, hrc, hcap, ?_, hp.symm, hk.symm⟩
            · exact (List.singleton_sublist.mpr hr1).append (List.Sublist.refl [r])
            · rw [hr1c, hrc]
            · rw [← hd]
          · have hlk2 : lookupA m c = some inner0 := by rw [← hrc]; exact hlk
            rcases hI2 c inner0 d p k hlk2 hold with ⟨r1, r2, hs, hx⟩
            exact ⟨r1, r2, hs.trans hsub, hx⟩
        · rw [if_neg hrc] at hl
          rcases hI2 c inner d p k hl hm with ⟨r1, r2, hs, hx⟩
          exact ⟨r1, r2, hs.trans hsub, hx⟩
  · have hstep : csvStep m r = m := by simp [csvStep, hcap]
    rw [hstep]
    refine ⟨hkeys, ?_, ?_⟩
    · intro c
      rw [hI1 c]
      constructor
      · rintro ⟨x, hx, hxc⟩
        exact ⟨x, List.mem_append.mpr (Or.inl hx), hxc⟩
      · rintro ⟨x, hx, hxc⟩
        rcases List.mem_append.mp hx with hx | hx
        · exact ⟨x, hx, hxc⟩
        · rcases List.mem_singleton.mp hx with rfl
          exact absurd hxc.2 hcap
    · intro c inner d p k hl hm
      rcases hI2 c inner d p k hl hm with ⟨r1, r2, hs, hx⟩
      exact ⟨r1, r2, hs.trans hsub, hx⟩

theorem buildCoins_inv (rest : List PriceRow) :
    ∀ (pre : List PriceRow) (m : CoinsMap),
      (m.map Prod.fst).Nodup →
      (∀ c : String, (lookupA m c).isSome = true ↔
        ∃ x ∈ pre, x.coin = c ∧ x.cap ≠ 0) →
      (∀ (c : String) (inner : InnerMap) (d : String) (p k : Int),
        lookupA m c = some inner → (d, (p, k)) ∈ inner →
        ∃ r1 r2 : PriceRow, [r1, r2].Sublist pre ∧ r1.coin = c ∧ r1.cap ≠ 0 ∧
          r2.coin = c ∧ r2.cap ≠ 0 ∧ strftimeMDY r2.date = d ∧
          r2.price = p ∧ r2.cap = k) →
      (((rest.foldl csvStep m).map Prod.fst).Nodup ∧
      (∀ (c : String) (inner : InnerMap) (d : String) (p k : Int),
        lookupA (rest.foldl csvStep m) c = some inner → (d, (p, k)) ∈ inner →
        ∃ r1 r2 : PriceRow, [r1, r2].Sublist (pre ++ rest) ∧ r1.coin = c ∧
          r1.cap ≠ 0 ∧ r2.coin = c ∧ r2.cap ≠ 0 ∧ strftimeMDY r2.date = d ∧
          r2.price = p ∧ r2.cap = k)) := by
  induction rest with
  | nil =>
    intro pre m h1 _ h3
    simpa using ⟨h1, h3⟩
  | cons r rest ih =>
    intro pre m h1 h2 h3
    have hstep := csvStep_inv pre m r h1 h2 h3
    have hrec := ih (pre ++ [r]) (csvStep m r) hstep.1 hstep.2.1 hstep.2.2
    rw [List.append_assoc] at hrec
    simpa using hrec

/-- C10: the first nonzero-cap row of each coin only initializes that coin's
(empty) dict and contributes no data line: a `(coin, date)` entry appears in
`data.csv` only as the values of a nonzero-cap row that is preceded by an
earlier nonzero-cap row of the same coin; consequently a coin with at most
one retained row never appears in the table. -/
theorem first_retained_row_contributes_nothing :
    (∀ (rows : List PriceRow) (c d : String) (p k : Int),
      (c, d, p, k) ∈ dataEntries rows →
      ∃ r1 r2 : PriceRow, [r1, r2].Sublist rows ∧ r1.coin = c ∧ r1.cap ≠ 0 ∧
        r2.coin = c ∧ r2.cap ≠ 0 ∧ strftimeMDY r2.date = d ∧
        r2.price = p ∧ r2.cap = k) ∧
    (∀ (rows : List PriceRow) (c : String),
      (rows.filter (fun x => decide (x.coin = c ∧ x.cap ≠ 0))).length ≤ 1 →
      ∀ e ∈ dataEntries rows, e.1 ≠ c) := by
  have main : ∀ (rows : List PriceRow) (c d : String) (p k : Int),
      (c, d, p, k) ∈ dataEntries rows →
      ∃ r1 r2 : PriceRow, [r1, r2].Sublist rows ∧ r1.coin = c ∧ r1.cap ≠ 0 ∧
        r2.coin = c ∧ r2.cap ≠ 0 ∧ strftimeMDY r2.date = d ∧
        r2.price = p ∧ r2.cap = k := by
    intro rows c d p k hmem
    have hinv := buildCoins_inv rows [] []
      (by simp)
      (by intro c0; simp [lookupA])
      (by intro c0 inner d0 p0 k0 hl; simp [lookupA] at hl)
    rcases List.mem_flatMap.mp hmem with ⟨ci, hci, hde⟩
    rcases ci with ⟨c0, inner⟩
    rcases List.mem_map.mp hde with ⟨de, hdein, heq⟩
    rcases de with ⟨d0, p0, k0⟩
    simp only [Prod.mk.injEq] at heq
    rcases heq with ⟨rfl, rfl, rfl, rfl⟩
    have hlook : lookupA (buildCoins rows) c0 = some inner :=
      lookupA_of_mem_of_nodup hinv.1 hci
    have := hinv.2 c0 inner d0 p0 k0 hlook (by simpa using hdein)
    simpa using this
  refine ⟨main, ?_⟩
  intro rows c hlen e he hceq
  rcases e with ⟨c0, d0, p0, k0⟩
  simp only at hceq
  subst hceq
  rcases main rows c0 d0 p0 k0 he with ⟨r1, r2, hs, h1, h2, h3, h4, _, _, _⟩
  have hff : [r1, r2].filter (fun x => decide (x.coin = c0 ∧ x.cap ≠ 0)) =
      [r1, r2] := by
    simp [List.filter, h1, h2, h3, h4]
  have hfs := hs.filter (fun x => decide (x.coin = c0 ∧ x.cap ≠ 0))
  rw [hff] at hfs
  have hlen2 := hfs.length_le
  have hl2 : ([r1, r2] : List PriceRow).length = 2 := rfl
  omega

/-- Witness for the C10 theorem: the second retained BTC row does appear,
preceded by the first retained BTC row. -/
theorem first_retained_row_contributes_nothing_witness :
    ∃ r1 r2 : PriceRow,
      [r1, r2].Sublist
        [⟨"BTC", 2, 5, ⟨1, 15, 2021⟩⟩, ⟨"BTC", 7, 9, ⟨1, 16, 2021⟩⟩] ∧
      r1.coin = "BTC" ∧ r1.cap ≠ 0 ∧ r2.coin = "BTC" ∧ r2.cap ≠ 0 ∧
      strftimeMDY r2.date = "01-16-2021" ∧ r2.price = 7 ∧ r2.cap = 9 :=
  first_retained_row_contributes_nothing.1
    [⟨"BTC", 2, 5, ⟨1, 15, 2021⟩⟩, ⟨"BTC", 7, 9, ⟨1, 16, 2021⟩⟩]
    "BTC" "01-16-2021" 7 9 (by decide)

/-- C2 (code bug): on the spec's own example
`[(BTC, 1, 0, d1), (BTC, 2, 5, d1)]` the serializer emits **no** data line —
the cap-0 row is dropped, and the remaining row's `KeyError` handler creates
the per-coin dict empty and discards the row's values — so the claimed
output line `(BTC, 2, 5, d1)` is absent. -/
theorem create_csv_drops_first_retained_row :
    csvTable [⟨"BTC", 1, 0, ⟨1, 15, 2021⟩⟩, ⟨"BTC", 2, 5, ⟨1, 15, 2021⟩⟩] =
      [csvHeader] ∧
    dataEntries [⟨"BTC", 1, 0, ⟨1, 15, 2021⟩⟩, ⟨"BTC", 2, 5, ⟨1, 15, 2021⟩⟩] =
      [] ∧
    buildCoins [⟨"BTC", 1, 0, ⟨1, 15, 2021⟩⟩, ⟨"BTC", 2, 5, ⟨1, 15, 2021⟩⟩] =
      [("BTC", [])] := by
  decide

theorem hexWord_length (n : Nat) : (hexWord n).length = 8 := by
  show ((List.range 8).map _).length = 8
  rw [List.length_map, List.length_range]

theorem foldl_compressBlock_length (bs : List (List Nat)) :
    ∀ hs : List Nat, hs.length = 8 → (bs.foldl compressBlock hs).length = 8 := by
  induction bs with
  | nil =>
    intro hs h
    simpa using h
  | cons b bs ih =>
    intro hs _
    rw [List.foldl_cons]
    exact ih _ rfl

theorem sha256Words_length (s : String) : (sha256Words s).length = 8 :=
  foldl_compressBlock_length _ shaH0 rfl

theorem hexOfWords_length (l : List Nat) : (hexOfWords l).length = 8 * l.length := by
  induction l with
  | nil => rfl
  | cons w t ih =>
    show (hexWord w ++ hexOfWords t).length = _
    rw [String.length_append, hexWord_length, ih, List.length_cons]
    ring

theorem sha256hex_length (s : String) : (sha256hex s).length = 64 := by
  unfold sha256hex
  rw [hexOfWords_length, sha256Words_length]

/-- C1: (i) the src variant writes, on **every** terminal path — success,
every known failure code, and the unclassified failure — exactly one
fingerprint file whose content is a 64-character digest (hence non-empty),
and exactly one completion descriptor whose `deterministic-output-path` is
the fingerprint file's path `deterministic_loc`; (ii) the scr variant
**violates** the claim: on its known-failure path with the module default
`error_callback = True` it writes no fingerprint at all and a descriptor
with no path entry. -/
theorem fingerprint_descriptor_invariant :
    (∀ (argv : List String) (tbl : Option String) (q : QueryOutcome)
      (csvOk receiptOk : Bool),
      ((runSrc argv tbl q csvOk receiptOk).resultWrites.map String.length) = [64] ∧
      (runSrc argv tbl q csvOk receiptOk).computedWrites = 1 ∧
      (runSrc argv tbl q csvOk receiptOk).computedPath = some deterministic_loc) ∧
    ((runScr ["app"] none (.ok []) true).errorCode = some 1 ∧
      (runScr ["app"] none (.ok []) true).resultWrites = [] ∧
      (runScr ["app"] none (.ok []) true).computedPath = none ∧
      (runScr ["app"] none (.ok []) true).computedWrites = 1) := by
  constructor
  · intro argv tbl q csvOk receiptOk
    unfold runSrc
    cases analyze_user_input argv with
    | sentinel => simp [finalizeSrc, sha256hex_length]
    | ok v =>
      cases tbl with
      | none => simp [finalizeSrc, sha256hex_length]
      | some table =>
        cases q with
        | fileNotFound => simp [finalizeSrc, sha256hex_length]
        | queryError => simp [finalizeSrc, sha256hex_length]
        | ok rows =>
          cases csvOk <;> cases receiptOk <;> simp [finalizeSrc, sha256hex_length]
  · exact ⟨rfl, rfl, rfl, rfl⟩

/-- C3 counterexample: with a valid dataset descriptor and a query that
succeeds with zero rows, the run ends in the **success** state: `data.csv`
containing only the header is written, a receipt is written, and no error
marker is produced — not the claimed known-failure state (the taxonomy has
no `no results` code at all). -/
theorem zero_rows_success_counterexample :
    (runSrc ["app"] (some "tbl") (.ok []) true true).errorCode = none ∧
    (runSrc ["app"] (some "tbl") (.ok []) true true).errorWrites = [] ∧
    (runSrc ["app"] (some "tbl") (.ok []) true true).dataCsv = some [csvHeader] ∧
    (runSrc ["app"] (some "tbl") (.ok []) true true).receipt = true := by
  exact ⟨rfl, rfl, rfl, rfl⟩

/-- C3 as amended: when the external query succeeds with zero rows, the run
terminates in the success state — a header-only `data.csv`, a receipt, no
error marker, and the success fingerprint of the query text. -/
theorem zero_rows_success :
    ∀ (argv v : List String) (table : String),
      analyze_user_input argv = .ok v →
      (runSrc argv (some table) (.ok []) true true).errorCode = none ∧
      (runSrc argv (some table) (.ok []) true true).errorWrites = [] ∧
      (runSrc argv (some table) (.ok []) true true).dataCsv = some [csvHeader] ∧
      (runSrc argv (some table) (.ok []) true true).receipt = true ∧
      (runSrc argv (some table) (.ok []) true true).resultWrites =
        [sha256hex (buildSql table (joinQuotedCoins (effectiveCoins v)))] := by
  intro argv v table h
  unfold runSrc
  rw [h]
  exact ⟨rfl, rfl, rfl, rfl, rfl⟩

/-- Witness for the amended C3 theorem at a concrete zero-row run. -/
theorem zero_rows_success_witness :
    analyze_user_input ["app", "doge"] = .ok ["DOGE"] ∧
    (runSrc ["app", "doge"] (some "tbl") (.ok []) true true).errorCode = none ∧
    (runSrc ["app", "doge"] (some "tbl") (.ok []) true true).errorWrites = [] :=
  ⟨by decide, (zero_rows_success ["app", "doge"] ["DOGE"] "tbl" (by decide)).1,
    (zero_rows_success ["app", "doge"] ["DOGE"] "tbl" (by decide)).2.1⟩

/-- C4 counterexample: on a failing run (missing dataset descriptor,
taxonomy code 1) the error marker file is written with **empty** content:
it contains neither the numeric code nor the fixed message. -/
theorem error_marker_empty_counterexample :
    (runSrc ["app"] none (.ok []) true true).errorCode = some 1 ∧
    (runSrc ["app"] none (.ok []) true true).errorWrites = [""] ∧
    ("" : String) ≠ errLine 1 ∧
    ¬ ("1".data <:+: ("" : String).data) ∧
    ¬ ((errMessages 1).data <:+: ("" : String).data) := by
  refine ⟨rfl, rfl, by decide, by decide, by decide⟩

/-- C4 as amended: on every failing terminal path of the src variant the
error marker `ERROR.txt` is written exactly once, with empty content; the
numeric taxonomy code and its fixed message go to the execution log line
`ERROR: (code) message` instead of into the marker. -/
theorem error_marker_empty_and_code_logged :
    ∀ (argv : List String) (tbl : Option String) (q : QueryOutcome)
      (csvOk receiptOk : Bool) (c : Nat),
      (runSrc argv tbl q csvOk receiptOk).errorCode = some c →
      (runSrc argv tbl q csvOk receiptOk).errorWrites = [""] ∧
      (runSrc argv tbl q csvOk receiptOk).errorLog = [errLine c] := by
  intro argv tbl q csvOk receiptOk c h
  unfold runSrc at h ⊢
  cases ha : analyze_user_input argv with
  | sentinel =>
    simp [ha, finalizeSrc] at h
    subst h
    simp [ha, finalizeSrc]
  | ok v =>
    cases tbl with
    | none =>
      simp [ha, finalizeSrc] at h
      subst h
      simp [ha, finalizeSrc]
    | some table =>
      cases q with
      | fileNotFound =>
        simp [ha, finalizeSrc] at h
        subst h
        simp [ha, finalizeSrc]
      | queryError =>
        simp [ha, finalizeSrc] at h
        subst h
        simp [ha, finalizeSrc]
      | ok rows =>
        cases csvOk with
        | false =>
          simp [ha, finalizeSrc] at h
          subst h
          simp [ha, finalizeSrc]
        | true =>
          cases receiptOk with
          | false =>
            simp [ha, finalizeSrc] at h
            subst h
            simp [ha, finalizeSrc]
          | true =>
            simp [ha, finalizeSrc] at h

/-- Witness for the amended C4 theorem at a concrete failing run. -/
theorem error_marker_empty_and_code_logged_witness :
    (runSrc ["app"] none (.ok []) true true).errorCode = some 1 ∧
    (runSrc ["app"] none (.ok []) true true).errorWrites = [""] ∧
    (runSrc ["app"] none (.ok []) true true).errorLog = [errLine 1] :=
  ⟨rfl,
    (error_marker_empty_and_code_logged ["app"] none (.ok []) true true 1 rfl).1,
    (error_marker_empty_and_code_logged ["app"] none (.ok []) true true 1 rfl).2⟩

end IexecBQ
